import Mathlib

/-!
Verification development for `pywingetupgrader` (src/pywingetupgrader.py):
a fixed-width table parser for `winget upgrade` output, and a semantic-version
upgrade classifier with allow/block lists.

The embedding works over `List Char` models of Python strings (ASCII-faithful
models of `str.split`, `str.find`, slicing, `str.strip`, `str.lower`,
`str.isprintable`), association-list models of Python `dict` records, and an
`Except` model of exception propagation.  Definitions carry the source's
function names.
-/

namespace PyWinget

/-! ## Character helpers (ASCII-faithful models of Python predicates) -/

/-- Model of the regex class `\d` (ASCII digits 0-9; `re` also accepts other
Unicode decimal digits, which do not occur in this program's data). -/
def isDigitChar (c : Char) : Bool := decide (48 ≤ c.toNat ∧ c.toNat ≤ 57)

/-- Model of Python whitespace used by `str.split()` and `str.strip()`:
space, tab, LF, VT, FF, CR. -/
def isSpaceChar (c : Char) : Bool :=
  decide (c.toNat = 32 ∨ c.toNat = 9 ∨ c.toNat = 10 ∨ c.toNat = 11 ∨
          c.toNat = 12 ∨ c.toNat = 13)

/-- Model of `str.isprintable` on a single character (ASCII: everything from
space up, except DEL). -/
def charPrintable (c : Char) : Bool := decide (32 ≤ c.toNat ∧ c.toNat ≠ 127)

/-- `str.isprintable` on a token. -/
def listPrintable (l : List Char) : Bool := l.all charPrintable

/-- Model of `str.lower` on one character (ASCII range, which is all the
program compares against: "all", "unknown"). -/
def pyLowerChar (c : Char) : Char :=
  if 65 ≤ c.toNat ∧ c.toNat ≤ 90 then Char.ofNat (c.toNat + 32) else c

/-- Model of `str.lower`. -/
def lowerStr (s : String) : String := ⟨s.data.map pyLowerChar⟩

/-- Python string value of the digits of a numeral, i.e. `int(s)` for an
all-digits string `s`. -/
def natOfDigits (l : List Char) : Nat :=
  l.foldl (fun n c => 10 * n + (c.toNat - 48)) 0

/-! ## Model of `SEMVER_PATTERN = re.compile("^\d+?\.\d+?\.\d+$")`

`re.match` anchors at the start; the `$` also matches just before one trailing
`"\n"`.  The non-greedy `\d+?` recognises the same language as `\d+` here,
because a digit can never match the following `"."`.  When the pattern
matches, the string is `digits "." digits "." digits` (plus at most one
trailing newline), so `split(".")` followed by `int(...)` yields the three
components, which is what `parseSemverChars` returns directly. -/

/-- Drop the single trailing newline that `$` tolerates. -/
def stripTrailingNewline (l : List Char) : List Char :=
  if l.getLast? = some '\n' then l.dropLast else l

/-- Recognise `digits "." digits "." digits` and return the three numbers. -/
def parseSemverChars (l : List Char) : Option (Nat × Nat × Nat) :=
  match l.takeWhile isDigitChar, l.dropWhile isDigitChar with
  | [], _ => none
  | _ :: _, '.' :: r2 =>
    match r2.takeWhile isDigitChar, r2.dropWhile isDigitChar with
    | [], _ => none
    | _ :: _, '.' :: r4 =>
      match r4.takeWhile isDigitChar, r4.dropWhile isDigitChar with
      | _ :: _, [] =>
        some (natOfDigits (l.takeWhile isDigitChar),
              natOfDigits (r2.takeWhile isDigitChar),
              natOfDigits (r4.takeWhile isDigitChar))
      | _, _ => none
    | _, _ => none
  | _, _ => none

/-- The three integers extracted by `app["..."].split(".")` + `int`, available
exactly when `SEMVER_PATTERN.match` succeeds. -/
def semverTriple? (s : String) : Option (Nat × Nat × Nat) :=
  parseSemverChars (stripTrailingNewline s.data)

/-- Truthiness of `SEMVER_PATTERN.match(s)`. -/
def semverMatch (s : String) : Bool := (semverTriple? s).isSome

/-! ## Records: the Python `dict` model

Parsed application records are Python dicts from column name to trimmed
string; `add_semver_details` later stores `int` values under the six derived
keys.  A record is modelled as an association list in insertion order, with
first-match lookup and replace-at-existing-key assignment, exactly the
observable behaviour of a Python dict (whose keys are unique, so first-match
and the dict's single slot agree). -/

inductive Val where
  | str (s : String)
  | num (n : Nat)
deriving DecidableEq

abbrev Record := List (String × Val)

/-- Dict lookup (first matching key). -/
def findVal : Record → String → Option Val
  | [], _ => none
  | (k', v) :: r, k => if k' = k then some v else findVal r k

/-- Dict assignment `d[k] = v`: overwrite the value at an existing key,
keeping its position, otherwise append at the end. -/
def setVal : Record → String → Val → Record
  | [], k, v => [(k, v)]
  | (k', v') :: r, k, v =>
    if k' = k then (k', v) :: r else (k', v') :: setVal r k v

/-- `k in app`. -/
def hasKey (r : Record) (k : String) : Bool := (findVal r k).isSome

/-- `app[k]` where the program reads a parser-produced string column
(`"Name"`, `"Id"`, `"Version"`, `"Available"`).  A missing key raises
`KeyError` in Python; the classifier is only ever applied to parser records
that carry these columns, and the default `""` (which matches neither the
semver pattern nor any identifier list) stands in for the unreachable case. -/
def getStr (r : Record) (k : String) : String :=
  match findVal r k with
  | some (Val.str s) => s
  | _ => ""

/-- `app[k]` as a raw value (used for the derived semver keys). -/
def getVal (r : Record) (k : String) : Val :=
  (findVal r k).getD (Val.str "")

/-- Python `==` between two stored values: `int == int` and `str == str`
compare normally; `int == str` is `False`. -/
def valEq : Val → Val → Bool
  | Val.str a, Val.str b => a == b
  | Val.num a, Val.num b => a == b
  | _, _ => false

/-- Lexicographic (code-point) comparison, Python `str < str`. -/
def listCharLt : List Char → List Char → Bool
  | [], [] => false
  | [], _ :: _ => true
  | _ :: _, [] => false
  | a :: as, b :: bs =>
    if a < b then true else if b < a then false else listCharLt as bs

/-- Python `<` between two stored values.  In this program both operands are
the `int`s written by `add_semver_details`; a mixed `int`/`str` comparison
would raise `TypeError` in Python and is modelled as `false` (no claim
depends on that corner). -/
def valLt : Val → Val → Bool
  | Val.num a, Val.num b => decide (a < b)
  | Val.str a, Val.str b => listCharLt a.data b.data
  | _, _ => false

/-! ## Table parser -/

/-- The parse failure: the source raises `IndexError` at `rows[0]` /
`headers[0]` when the input has no usable header/row structure; the error is
propagated to `main`'s generic handler with no partial results.  The spec
names this failure `MalformedTableError`. -/
inductive ParseError where
  | malformedTable
deriving DecidableEq

instance {ε α : Type} [DecidableEq ε] [DecidableEq α] :
    DecidableEq (Except ε α) := fun x y =>
  match x, y with
  | Except.ok a, Except.ok b =>
    if h : a = b then isTrue (by rw [h])
    else isFalse (fun hc => h (Except.ok.inj hc))
  | Except.error a, Except.error b =>
    if h : a = b then isTrue (by rw [h])
    else isFalse (fun hc => h (Except.error.inj hc))
  | Except.ok _, Except.error _ => isFalse (fun hc => Except.noConfusion hc)
  | Except.error _, Except.ok _ => isFalse (fun hc => Except.noConfusion hc)

/-- `str.split("\r\n")` (leftmost-first scan, like Python). -/
def splitCRLF : List Char → List (List Char)
  | [] => [[]]
  | '\r' :: '\n' :: rest => [] :: splitCRLF rest
  | c :: rest => (c :: (splitCRLF rest).headI) :: (splitCRLF rest).tail

/-- Chunks of `str.split()` before discarding empties (split at each
whitespace character). -/
def splitWsChunks : List Char → List (List Char)
  | [] => [[]]
  | c :: cs =>
    let r := splitWsChunks cs
    if isSpaceChar c then [] :: r else (c :: r.headI) :: r.tail

/-- `str.split()`: maximal whitespace-free runs. -/
def pyWords (l : List Char) : List (List Char) :=
  (splitWsChunks l).filter (fun w => w ≠ [])

/-- Is `pat` a prefix of `hay`? -/
def startsWithList : List Char → List Char → Bool
  | _, [] => true
  | [], _ :: _ => false
  | a :: as, b :: bs => a == b && startsWithList as bs

/-- First index of substring `pat` in `hay`, if any. -/
def findSub (pat : List Char) : List Char → Option Nat
  | [] => if startsWithList [] pat then some 0 else none
  | c :: t =>
    if startsWithList (c :: t) pat then some 0
    else (findSub pat t).map (· + 1)

/-- `hay.find(pat)`.  Python returns `-1` when absent; every pattern passed
in this program is a whitespace-free token of the very line being searched,
which always occurs, so the absent case is unreachable (modelled as 0). -/
def strFind (hay pat : List Char) : Nat := (findSub pat hay).getD 0

/-- `row[a:b]` for non-negative bounds. -/
def pySlice (l : List Char) (a b : Nat) : List Char := (l.drop a).take (b - a)

/-- `s.strip()`. -/
def pyStrip (l : List Char) : List Char :=
  (((l.dropWhile isSpaceChar).reverse).dropWhile isSpaceChar).reverse

/-- The printable tokens of the header line:
`[v for v in header_row.split() if v.isprintable()]`. -/
def headerTokens (l : List Char) : List (List Char) :=
  (pyWords l).filter listPrintable

/-- `get_headers_and_their_starting_positions(rows)` — `rows[0]` and
`headers[0]` raise `IndexError` when empty; otherwise each printable token is
paired with `header_row.find(h) - first_header_offset`.  (`find(h)` is never
smaller than `find(headers[0])`, since only whitespace precedes the first
token, so the Python `int` subtraction never goes negative and `Nat`
subtraction is faithful.) -/
def get_headers_and_their_starting_positions (rows : List (List Char)) :
    Except ParseError (List (List Char × Nat)) :=
  match rows with
  | [] => Except.error ParseError.malformedTable
  | header_row :: _ =>
    match headerTokens header_row with
    | [] => Except.error ParseError.malformedTable
    | h0 :: hs =>
      Except.ok ((h0 :: hs).map
        (fun h => (h, strFind header_row h - strFind header_row h0)))

/-- The per-row loop of `extract_applications_from_table`: for each header
(with the next header's start as the end offset; the last header runs to the
end of the line) store the stripped slice in the dict. -/
def record_of_row (row : List Char) :
    List (List Char × Nat) → Record → Record
  | [], record => record
  | (key, start_pos) :: rest, record =>
    let value : List Char :=
      match rest with
      | (_, end_pos) :: _ => pyStrip (pySlice row start_pos end_pos)
      | [] => pyStrip (row.drop start_pos)
    record_of_row row rest (setVal record ⟨key⟩ (Val.str ⟨value⟩))

/-- The association list of column/value pairs the loop of
`extract_applications_from_table` inserts into the dict, in header order
(used to specify `record_of_row`: with distinct labels the two coincide). -/
def row_fields (row : List Char) : List (List Char × Nat) → List (String × Val)
  | [] => []
  | (key, start_pos) :: rest =>
    (⟨key⟩, Val.str ⟨match rest with
      | (_, end_pos) :: _ => pyStrip (pySlice row start_pos end_pos)
      | [] => pyStrip (row.drop start_pos)⟩) :: row_fields row rest

/-- The body of `extract_applications_from_table` after
`rows = output.split("\r\n")[:-2]`: compute headers, then one record per row
from the third row on. -/
def extract_records (rows : List (List Char)) :
    Except ParseError (List Record) :=
  match get_headers_and_their_starting_positions rows with
  | Except.error e => Except.error e
  | Except.ok hp =>
    Except.ok ((rows.drop 2).map (fun row => record_of_row row hp []))

/-- `extract_applications_from_table(output)`:
`rows = output.split("\r\n")[:-2]`, then the header/record loop. -/
def extract_applications_from_table (output : String) :
    Except ParseError (List Record) :=
  extract_records (((splitCRLF output.data).dropLast).dropLast)

/-! ## Upgrade classifier -/

/-- The comprehension filter of `get_applications_using_semver`:
`SEMVER_PATTERN.match(app["Version"]) or SEMVER_PATTERN.match(app["Available"])`. -/
def uses_semver (app : Record) : Bool :=
  semverMatch (getStr app "Version") || semverMatch (getStr app "Available")

/-- First block of `add_semver_details`: when `app["Version"]` matches the
semver pattern, store its three `int` components under
`current_major/minor/patch` (dict assignment into `app` itself). -/
def add_current_semver (app : Record) : Record :=
  match semverTriple? (getStr app "Version") with
  | some (major, minor, patch) =>
    setVal (setVal (setVal app "current_major" (Val.num major))
      "current_minor" (Val.num minor)) "current_patch" (Val.num patch)
  | none => app

/-- Second block of `add_semver_details`: likewise for `app["Available"]`
under `available_major/minor/patch`, reading from the dict as already updated
by the first block. -/
def add_available_semver (app : Record) : Record :=
  match semverTriple? (getStr app "Available") with
  | some (major, minor, patch) =>
    setVal (setVal (setVal app "available_major" (Val.num major))
      "available_minor" (Val.num minor)) "available_patch" (Val.num patch)
  | none => app

/-- `add_semver_details(app)`: the two blocks in sequence.  The source
assigns into `app` itself (`app["current_major"] = ...`) and returns that
same dict — the record is mutated in place, not copied; this function gives
the dict's resulting contents. -/
def add_semver_details (app : Record) : Record :=
  add_available_semver (add_current_semver app)

/-- `get_applications_using_semver(applications)`: the returned list —
qualifying records, annotated. -/
def get_applications_using_semver (applications : List Record) : List Record :=
  (applications.filter uses_semver).map add_semver_details

/-- Aliasing model: `get_applications_using_semver` calls
`add_semver_details(app)`, which mutates each qualifying record in place, so
after the call the *caller's* list holds these contents (non-qualifying
records untouched).  Re-annotation is a no-op (`add_semver_details` is
idempotent, proved below), so one application captures the state after any
number of calls. -/
def annotate_in_place (applications : List Record) : List Record :=
  applications.map (fun app =>
    if uses_semver app then add_semver_details app else app)

/-- Filter of the `apps_with_patch_upgrades` comprehension. -/
def has_patch_upgrade (app : Record) : Bool :=
  hasKey app "current_major" && hasKey app "available_major" &&
  valEq (getVal app "current_major") (getVal app "available_major") &&
  valEq (getVal app "current_minor") (getVal app "available_minor") &&
  valLt (getVal app "current_patch") (getVal app "available_patch")

/-- Filter of the `apps_with_minor_upgrades` comprehension. -/
def has_minor_upgrade (app : Record) : Bool :=
  hasKey app "current_major" && hasKey app "available_major" &&
  valEq (getVal app "current_major") (getVal app "available_major") &&
  valLt (getVal app "current_minor") (getVal app "available_minor")

/-- Filter of the `apps_with_major_upgrades` comprehension. -/
def has_major_upgrade (app : Record) : Bool :=
  hasKey app "current_major" && hasKey app "available_major" &&
  valLt (getVal app "current_major") (getVal app "available_major")

/-- Filter of the `apps_with_unknown_current_version` comprehension:
`app["Version"].lower() == "unknown"`. -/
def has_unknown_current_version (app : Record) : Bool :=
  lowerStr (getStr app "Version") == "unknown"

/-- `get_apps_to_upgrade(applications, upgrade_level, upgrade_unknowns)`.
Note: the `"all"` comparison lowercases, the `"patch"/"minor"/"major"`
comparisons do not (the source lowercases the level in `main` already); the
`"all"` branch returns the *argument* unchanged; an unrecognised level
selects nothing; the unknown-version records are appended afterwards. -/
def get_apps_to_upgrade (applications : List Record) (upgrade_level : String)
    (upgrade_unknowns : Bool) : List Record :=
  let applications_using_semver := get_applications_using_semver applications
  if lowerStr upgrade_level == "all" then applications
  else
    let apps_with_patch_upgrades :=
      applications_using_semver.filter has_patch_upgrade
    let apps_with_minor_upgrades :=
      applications_using_semver.filter has_minor_upgrade
    let apps_with_major_upgrades :=
      applications_using_semver.filter has_major_upgrade
    let apps_with_unknown_current_version :=
      applications_using_semver.filter has_unknown_current_version
    let apps_to_upgrade :=
      if upgrade_level == "patch" then apps_with_patch_upgrades
      else if upgrade_level == "minor" then
        apps_with_minor_upgrades ++ apps_with_patch_upgrades
      else if upgrade_level == "major" then
        apps_with_major_upgrades ++ apps_with_minor_upgrades ++
          apps_with_patch_upgrades
      else []
    if upgrade_unknowns then
      apps_to_upgrade ++ apps_with_unknown_current_version
    else apps_to_upgrade

/-- The hard-coded allow-list of `get_allowed_updates`. -/
def get_allowed_updates : List String := ["Python.Python.3"]

/-- The hard-coded block-list of `get_blocked_updates`. -/
def get_blocked_updates : List String :=
  ["EvanCzaplicki.Elm", "VMware.WorkstationPro", "CoreyButler.NVMforWindows"]

/-- `add_allowed_updates` with the allow-list as explicit data (the source
reads it from `get_allowed_updates()`): append every application whose `Id`
is allow-listed, from the full `applications` list, with no deduplication. -/
def add_allowed_updates_with (allowed : List String)
    (apps_to_upgrade applications : List Record) : List Record :=
  apps_to_upgrade ++
    applications.filter (fun app => allowed.contains (getStr app "Id"))

/-- `add_allowed_updates(apps_to_upgrade, applications)`. -/
def add_allowed_updates (apps_to_upgrade applications : List Record) :
    List Record :=
  add_allowed_updates_with get_allowed_updates apps_to_upgrade applications

/-- `remove_blocked_updates` with the block-list as explicit data: drop every
record whose `Id` is block-listed. -/
def remove_blocked_updates_with (blocked : List String)
    (apps_to_upgrade : List Record) : List Record :=
  apps_to_upgrade.filter (fun app => !(blocked.contains (getStr app "Id")))

/-- `remove_blocked_updates(apps_to_upgrade)`. -/
def remove_blocked_updates (apps_to_upgrade : List Record) : List Record :=
  remove_blocked_updates_with get_blocked_updates apps_to_upgrade

/-- The classifier pipeline of `main` (lines 249-261), from parsed records to
the final upgrade list, with the allow/block lists as explicit policy data:
`main` lowercases the level, filters to semver-qualifying records (mutating
them in place), hands that filtered list to `get_apps_to_upgrade`, appends
allow-listed records from the (mutated) parsed list, and finally removes
blocked records. -/
def main_pipeline_with (allowed blocked : List String)
    (applications : List Record) (upgrade_level : String)
    (upgrade_unknowns : Bool) : List Record :=
  let level := lowerStr upgrade_level
  let applications_after := annotate_in_place applications
  let applications_using_semver := get_applications_using_semver applications
  let apps_to_upgrade :=
    get_apps_to_upgrade applications_using_semver level upgrade_unknowns
  let apps_to_upgrade :=
    add_allowed_updates_with allowed apps_to_upgrade applications_after
  remove_blocked_updates_with blocked apps_to_upgrade

/-- `main`'s pipeline with the program's hard-coded allow/block lists. -/
def main_pipeline (applications : List Record) (upgrade_level : String)
    (upgrade_unknowns : Bool) : List Record :=
  main_pipeline_with get_allowed_updates get_blocked_updates applications
    upgrade_level upgrade_unknowns

/-- Does every value of the record come from the parser, i.e. is it a
string?  (The parser stores only `row[...].strip()` results; `int` values
appear only through `add_semver_details`.) -/
def isStrRecord (r : Record) : Bool :=
  r.all (fun p => match p.2 with | Val.str _ => true | Val.num _ => false)

/-! ## Concrete example records (used by witnesses and counterexamples)

All are records of the shape produced by the parser from a five-column
`winget upgrade` table (`Name  Id  Version  Available  Source`). -/

/-- A minor upgrade: 1.0.0 → 1.1.0. -/
def fooMinorRecord : Record :=
  [("Name", Val.str "Foo"), ("Id", Val.str "Foo.Foo"),
   ("Version", Val.str "1.0.0"), ("Available", Val.str "1.1.0"),
   ("Source", Val.str "winget")]

/-- A patch upgrade: 1.0.0 → 1.0.1. -/
def fooPatchRecord : Record :=
  [("Name", Val.str "Foo"), ("Id", Val.str "Foo.Foo"),
   ("Version", Val.str "1.0.0"), ("Available", Val.str "1.0.1"),
   ("Source", Val.str "winget")]

/-- Equal versions on both sides: 1.2.3 → 1.2.3. -/
def equalVersionsRecord : Record :=
  [("Name", Val.str "Eq"), ("Id", Val.str "Eq.Eq"),
   ("Version", Val.str "1.2.3"), ("Available", Val.str "1.2.3"),
   ("Source", Val.str "winget")]

/-- An unknown current version with a semver `Available`. -/
def unknownRecord : Record :=
  [("Name", Val.str "U"), ("Id", Val.str "Unknown.App"),
   ("Version", Val.str "Unknown"), ("Available", Val.str "2.0.0"),
   ("Source", Val.str "winget")]

/-- Neither field parses as a semantic version. -/
def nonSemverRecord : Record :=
  [("Name", Val.str "Bar"), ("Id", Val.str "Bar.Bar"),
   ("Version", Val.str "abc"), ("Available", Val.str "def"),
   ("Source", Val.str "winget")]

/-- Neither field parses as a semantic version, and the identifier is on the
program's hard-coded allow-list. -/
def allowedNonSemverRecord : Record :=
  [("Name", Val.str "Py"), ("Id", Val.str "Python.Python.3"),
   ("Version", Val.str "abc"), ("Available", Val.str "def"),
   ("Source", Val.str "winget")]

/-- The six keys written by `add_semver_details`. -/
def derivedKeys : List String :=
  ["current_major", "current_minor", "current_patch",
   "available_major", "available_minor", "available_patch"]

/-! ## Dict lemmas -/

theorem findVal_setVal_self (r : Record) (k : String) (v : Val) :
    findVal (setVal r k v) k = some v := by
  induction r with
  | nil => simp [setVal, findVal]
  | cons p r ih =>
    by_cases h : p.1 = k
    · simp [setVal, findVal, h]
    · simp [setVal, findVal, h, ih]

theorem findVal_setVal_ne (r : Record) (k k' : String) (v : Val)
    (h : k' ≠ k) : findVal (setVal r k v) k' = findVal r k' := by
  have hk : ¬ k = k' := fun hc => h hc.symm
  induction r with
  | nil => simp [setVal, findVal, hk]
  | cons p r ih =>
    by_cases hp : p.1 = k
    · have hne : ¬ p.1 = k' := by rw [hp]; exact hk
      simp [setVal, findVal, hp, hne, hk]
    · simp [setVal, findVal, hp, ih]

theorem setVal_absorb {r : Record} {k : String} {v : Val}
    (h : findVal r k = some v) : setVal r k v = r := by
  induction r with
  | nil => simp [findVal] at h
  | cons p r ih =>
    by_cases hp : p.1 = k
    · simp only [findVal, if_pos hp] at h
      obtain ⟨k1, v1⟩ := p
      simp only at hp
      cases h
      simp [setVal, hp]
    · simp only [findVal, if_neg hp] at h
      simp [setVal, hp, ih h]

theorem setVal_fresh {r : Record} {k : String} (v : Val)
    (h : findVal r k = none) : setVal r k v = r ++ [(k, v)] := by
  induction r with
  | nil => simp [setVal]
  | cons p r ih =>
    by_cases hp : p.1 = k
    · simp [findVal, hp] at h
    · simp only [findVal, if_neg hp] at h
      simp [setVal, hp, ih h]

theorem findVal_append_left {r s : Record} {k : String} {v : Val}
    (h : findVal r k = some v) : findVal (r ++ s) k = some v := by
  induction r with
  | nil => simp [findVal] at h
  | cons p r ih =>
    by_cases hp : p.1 = k
    · simp only [findVal, if_pos hp] at h
      simp [findVal, hp, h]
    · simp only [findVal, if_neg hp] at h
      simp [findVal, hp, ih h]

theorem findVal_append_none {r s : Record} {k : String}
    (h : findVal r k = none) : findVal (r ++ s) k = findVal s k := by
  induction r with
  | nil => simp [findVal]
  | cons p r ih =>
    by_cases hp : p.1 = k
    · simp [findVal, hp] at h
    · simp only [findVal, if_neg hp] at h
      simp [findVal, hp, ih h]

theorem getStr_setVal_ne (r : Record) (k k' : String) (v : Val)
    (h : k' ≠ k) : getStr (setVal r k v) k' = getStr r k' := by
  unfold getStr
  rw [findVal_setVal_ne r k k' v h]

/-! ## `add_semver_details` lemmas -/

theorem add_current_semver_of_none {app : Record}
    (h : semverTriple? (getStr app "Version") = none) :
    add_current_semver app = app := by
  unfold add_current_semver
  simp only [h]

theorem add_available_semver_of_none {app : Record}
    (h : semverTriple? (getStr app "Available") = none) :
    add_available_semver app = app := by
  unfold add_available_semver
  simp only [h]

theorem findVal_add_current_semver (app : Record) (k : String)
    (h1 : k ≠ "current_major") (h2 : k ≠ "current_minor")
    (h3 : k ≠ "current_patch") :
    findVal (add_current_semver app) k = findVal app k := by
  unfold add_current_semver
  split
  · rw [findVal_setVal_ne _ "current_patch" k _ h3,
      findVal_setVal_ne _ "current_minor" k _ h2,
      findVal_setVal_ne _ "current_major" k _ h1]
  · rfl

theorem findVal_add_available_semver (app : Record) (k : String)
    (h1 : k ≠ "available_major") (h2 : k ≠ "available_minor")
    (h3 : k ≠ "available_patch") :
    findVal (add_available_semver app) k = findVal app k := by
  unfold add_available_semver
  split
  · rw [findVal_setVal_ne _ "available_patch" k _ h3,
      findVal_setVal_ne _ "available_minor" k _ h2,
      findVal_setVal_ne _ "available_major" k _ h1]
  · rfl

theorem findVal_add_semver_details (app : Record) {k : String}
    (h : ¬ k ∈ derivedKeys) :
    findVal (add_semver_details app) k = findVal app k := by
  simp only [derivedKeys, List.mem_cons, List.not_mem_nil, or_false,
    not_or] at h
  obtain ⟨h1, h2, h3, h4, h5, h6⟩ := h
  unfold add_semver_details
  rw [findVal_add_available_semver _ _ h4 h5 h6,
    findVal_add_current_semver _ _ h1 h2 h3]

theorem getStr_add_semver_details (app : Record) {k : String}
    (h : ¬ k ∈ derivedKeys) :
    getStr (add_semver_details app) k = getStr app k := by
  simp [getStr, findVal_add_semver_details app h]

theorem getStr_add_semver_Version (app : Record) :
    getStr (add_semver_details app) "Version" = getStr app "Version" :=
  getStr_add_semver_details app (by decide)

theorem getStr_add_semver_Available (app : Record) :
    getStr (add_semver_details app) "Available" = getStr app "Available" :=
  getStr_add_semver_details app (by decide)

theorem getStr_add_semver_Id (app : Record) :
    getStr (add_semver_details app) "Id" = getStr app "Id" :=
  getStr_add_semver_details app (by decide)

theorem uses_semver_add_semver_details (app : Record) :
    uses_semver (add_semver_details app) = uses_semver app := by
  simp [uses_semver, getStr_add_semver_Version, getStr_add_semver_Available]

theorem getStr_add_current_Version (app : Record) :
    getStr (add_current_semver app) "Version" = getStr app "Version" := by
  unfold getStr
  rw [findVal_add_current_semver app "Version" (by decide) (by decide)
    (by decide)]

theorem getStr_add_current_Available (app : Record) :
    getStr (add_current_semver app) "Available" = getStr app "Available" := by
  unfold getStr
  rw [findVal_add_current_semver app "Available" (by decide) (by decide)
    (by decide)]

theorem findVal_current_of_version {app : Record} {ma mi pa : Nat}
    (h : semverTriple? (getStr app "Version") = some (ma, mi, pa)) :
    findVal (add_semver_details app) "current_major" = some (Val.num ma) ∧
    findVal (add_semver_details app) "current_minor" = some (Val.num mi) ∧
    findVal (add_semver_details app) "current_patch" = some (Val.num pa) := by
  unfold add_semver_details
  rw [findVal_add_available_semver _ "current_major" (by decide) (by decide)
      (by decide),
    findVal_add_available_semver _ "current_minor" (by decide) (by decide)
      (by decide),
    findVal_add_available_semver _ "current_patch" (by decide) (by decide)
      (by decide)]
  unfold add_current_semver
  simp only [h]
  refine ⟨?_, ?_, ?_⟩
  · rw [findVal_setVal_ne _ "current_patch" "current_major" _ (by decide),
      findVal_setVal_ne _ "current_minor" "current_major" _ (by decide),
      findVal_setVal_self]
  · rw [findVal_setVal_ne _ "current_patch" "current_minor" _ (by decide),
      findVal_setVal_self]
  · rw [findVal_setVal_self]

theorem findVal_available_of_available {app : Record} {ma mi pa : Nat}
    (h : semverTriple? (getStr app "Available") = some (ma, mi, pa)) :
    findVal (add_semver_details app) "available_major" = some (Val.num ma) ∧
    findVal (add_semver_details app) "available_minor" = some (Val.num mi) ∧
    findVal (add_semver_details app) "available_patch" = some (Val.num pa) := by
  unfold add_semver_details
  have hA : semverTriple? (getStr (add_current_semver app) "Available") =
      some (ma, mi, pa) := by rw [getStr_add_current_Available, h]
  unfold add_available_semver
  simp only [hA]
  refine ⟨?_, ?_, ?_⟩
  · rw [findVal_setVal_ne _ "available_patch" "available_major" _ (by decide),
      findVal_setVal_ne _ "available_minor" "available_major" _ (by decide),
      findVal_setVal_self]
  · rw [findVal_setVal_ne _ "available_patch" "available_minor" _ (by decide),
      findVal_setVal_self]
  · rw [findVal_setVal_self]

theorem findVal_current_of_no_version {app : Record}
    (h : semverTriple? (getStr app "Version") = none) (k : String)
    (h1 : k ≠ "available_major") (h2 : k ≠ "available_minor")
    (h3 : k ≠ "available_patch") :
    findVal (add_semver_details app) k = findVal app k := by
  unfold add_semver_details
  rw [findVal_add_available_semver _ _ h1 h2 h3, add_current_semver_of_none h]

theorem add_current_semver_absorb {r : Record} {ma mi pa : Nat}
    (h : semverTriple? (getStr r "Version") = some (ma, mi, pa))
    (f1 : findVal r "current_major" = some (Val.num ma))
    (f2 : findVal r "current_minor" = some (Val.num mi))
    (f3 : findVal r "current_patch" = some (Val.num pa)) :
    add_current_semver r = r := by
  unfold add_current_semver
  simp only [h]
  rw [setVal_absorb f1, setVal_absorb f2, setVal_absorb f3]

theorem add_available_semver_absorb {r : Record} {ma mi pa : Nat}
    (h : semverTriple? (getStr r "Available") = some (ma, mi, pa))
    (f1 : findVal r "available_major" = some (Val.num ma))
    (f2 : findVal r "available_minor" = some (Val.num mi))
    (f3 : findVal r "available_patch" = some (Val.num pa)) :
    add_available_semver r = r := by
  unfold add_available_semver
  simp only [h]
  rw [setVal_absorb f1, setVal_absorb f2, setVal_absorb f3]

theorem add_semver_details_idem (app : Record) :
    add_semver_details (add_semver_details app) = add_semver_details app := by
  have hcur : add_current_semver (add_semver_details app) =
      add_semver_details app := by
    rcases hv : semverTriple? (getStr app "Version") with _ | ⟨⟨ma, mi, pa⟩⟩
    · exact add_current_semver_of_none
        (by rw [getStr_add_semver_Version, hv])
    · obtain ⟨f1, f2, f3⟩ := findVal_current_of_version hv
      exact add_current_semver_absorb
        (by rw [getStr_add_semver_Version, hv]) f1 f2 f3
  have hav : add_available_semver (add_semver_details app) =
      add_semver_details app := by
    rcases ha : semverTriple? (getStr app "Available") with _ | ⟨⟨ma, mi, pa⟩⟩
    · exact add_available_semver_of_none
        (by rw [getStr_add_semver_Available, ha])
    · obtain ⟨f1, f2, f3⟩ := findVal_available_of_available ha
      exact add_available_semver_absorb
        (by rw [getStr_add_semver_Available, ha]) f1 f2 f3
  show add_available_semver (add_current_semver (add_semver_details app)) =
    add_semver_details app
  rw [hcur, hav]

theorem get_applications_using_semver_idem (apps : List Record) :
    get_applications_using_semver (get_applications_using_semver apps) =
      get_applications_using_semver apps := by
  unfold get_applications_using_semver
  rw [List.filter_map]
  have hf : List.filter (uses_semver ∘ add_semver_details)
      (apps.filter uses_semver) = apps.filter uses_semver := by
    have h1 : List.filter (uses_semver ∘ add_semver_details)
        (apps.filter uses_semver) =
        List.filter uses_semver (apps.filter uses_semver) :=
      List.filter_congr (fun x _ => by
        simp [Function.comp, uses_semver_add_semver_details])
    have h2 : List.filter uses_semver (apps.filter uses_semver) =
        apps.filter uses_semver := by
      rw [List.filter_filter]
      exact List.filter_congr (fun x _ => by
        cases h : uses_semver x <;> simp [h])
    rw [h1, h2]
  rw [hf, List.map_map]
  exact List.map_congr_left (fun x _ => add_semver_details_idem x)

/-! ## Equation lemmas for `get_apps_to_upgrade` at the four levels -/

theorem get_apps_to_upgrade_all (apps : List Record) (u : Bool) :
    get_apps_to_upgrade apps "all" u = apps := rfl

theorem get_apps_to_upgrade_patch (apps : List Record) (u : Bool) :
    get_apps_to_upgrade apps "patch" u =
      if u then
        (get_applications_using_semver apps).filter has_patch_upgrade ++
          (get_applications_using_semver apps).filter
            has_unknown_current_version
      else (get_applications_using_semver apps).filter has_patch_upgrade :=
  rfl

theorem get_apps_to_upgrade_minor (apps : List Record) (u : Bool) :
    get_apps_to_upgrade apps "minor" u =
      if u then
        ((get_applications_using_semver apps).filter has_minor_upgrade ++
          (get_applications_using_semver apps).filter has_patch_upgrade) ++
          (get_applications_using_semver apps).filter
            has_unknown_current_version
      else
        (get_applications_using_semver apps).filter has_minor_upgrade ++
          (get_applications_using_semver apps).filter has_patch_upgrade :=
  rfl

theorem get_apps_to_upgrade_major (apps : List Record) (u : Bool) :
    get_apps_to_upgrade apps "major" u =
      if u then
        ((get_applications_using_semver apps).filter has_major_upgrade ++
          (get_applications_using_semver apps).filter has_minor_upgrade ++
          (get_applications_using_semver apps).filter has_patch_upgrade) ++
          (get_applications_using_semver apps).filter
            has_unknown_current_version
      else
        (get_applications_using_semver apps).filter has_major_upgrade ++
          (get_applications_using_semver apps).filter has_minor_upgrade ++
          (get_applications_using_semver apps).filter has_patch_upgrade :=
  rfl

/-! ## Digits-and-lowercase lemmas for the unknown-version rule -/

theorem parseSemverChars_head {l : List Char} {t : Nat × Nat × Nat}
    (h : parseSemverChars l = some t) :
    ∃ c cs, l = c :: cs ∧ isDigitChar c = true := by
  cases l with
  | nil => simp [parseSemverChars] at h
  | cons c cs =>
    by_cases hc : isDigitChar c
    · exact ⟨c, cs, rfl, hc⟩
    · simp [parseSemverChars, List.takeWhile_cons, hc] at h

theorem semverTriple?_head {v : String} {t : Nat × Nat × Nat}
    (h : semverTriple? v = some t) :
    ∃ c cs, v.data = c :: cs ∧ isDigitChar c = true := by
  unfold semverTriple? stripTrailingNewline at h
  by_cases hl : v.data.getLast? = some '\n'
  · rw [if_pos hl] at h
    obtain ⟨c, cs, hcs, hc⟩ := parseSemverChars_head h
    obtain ⟨ys, hys⟩ := List.getLast?_eq_some_iff.mp hl
    rw [hys, List.dropLast_concat] at hcs
    exact ⟨c, cs ++ ['\n'], by rw [hys, hcs]; simp, hc⟩
  · rw [if_neg hl] at h
    exact parseSemverChars_head h

theorem pyLowerChar_digit {c : Char} (h : isDigitChar c = true) :
    pyLowerChar c = c := by
  unfold isDigitChar at h
  rw [decide_eq_true_iff] at h
  unfold pyLowerChar
  rw [if_neg]
  omega

theorem lowerStr_ne_unknown_of_semver {v : String} {t : Nat × Nat × Nat}
    (h : semverTriple? v = some t) :
    (lowerStr v == "unknown") = false := by
  obtain ⟨c, cs, hcs, hc⟩ := semverTriple?_head h
  rw [beq_eq_false_iff_ne]
  intro he
  have hd : (lowerStr v).data = ("unknown" : String).data := by rw [he]
  rw [show (lowerStr v).data = v.data.map pyLowerChar from rfl, hcs] at hd
  simp only [List.map_cons] at hd
  have hu : pyLowerChar c = 'u' := by
    have := congrArg (fun l => l.headI) hd
    simpa using this
  rw [pyLowerChar_digit hc] at hu
  rw [hu] at hc
  exact absurd hc (by decide)

/-! ## Membership lemmas for the classifier lists -/

theorem mem_gaus {apps : List Record} {x : Record}
    (hx : x ∈ get_applications_using_semver apps) :
    ∃ y ∈ apps, uses_semver y = true ∧ x = add_semver_details y := by
  unfold get_applications_using_semver at hx
  obtain ⟨y, hy, rfl⟩ := List.mem_map.mp hx
  rw [List.mem_filter] at hy
  exact ⟨y, hy.1, hy.2, rfl⟩

/-- A record of the classifier's semver-filtered list whose `Version` and
`Available` both parse to the same triple fails all four selection filters. -/
theorem guards_false_of_equal {apps : List Record} {x : Record}
    {ma mi pa : Nat}
    (hx : x ∈ get_applications_using_semver apps)
    (hv : semverTriple? (getStr x "Version") = some (ma, mi, pa))
    (ha : semverTriple? (getStr x "Available") = some (ma, mi, pa)) :
    has_patch_upgrade x = false ∧ has_minor_upgrade x = false ∧
    has_major_upgrade x = false ∧
    has_unknown_current_version x = false := by
  obtain ⟨y, _, _, rfl⟩ := mem_gaus hx
  rw [getStr_add_semver_Version] at hv
  rw [getStr_add_semver_Available] at ha
  obtain ⟨c1, c2, c3⟩ := findVal_current_of_version hv
  obtain ⟨a1, a2, a3⟩ := findVal_available_of_available ha
  refine ⟨?_, ?_, ?_, ?_⟩
  · simp [has_patch_upgrade, getVal, c1, c2, c3, a1, a2, a3, valLt]
  · simp [has_minor_upgrade, getVal, c1, c2, a1, a2, valLt]
  · simp [has_major_upgrade, getVal, c1, a1, valLt]
  · rw [has_unknown_current_version, getStr_add_semver_Version]
    exact lowerStr_ne_unknown_of_semver hv

/-! ## Pipeline membership lemmas -/

theorem findVal_mem {r : Record} {k : String} {v : Val}
    (h : findVal r k = some v) : (k, v) ∈ r := by
  induction r with
  | nil => simp [findVal] at h
  | cons p r ih =>
    by_cases hp : p.1 = k
    · simp only [findVal, if_pos hp] at h
      obtain ⟨k1, v1⟩ := p
      simp only at hp
      cases h
      exact hp ▸ List.mem_cons_self _ _
    · simp only [findVal, if_neg hp] at h
      exact List.mem_cons_of_mem _ (ih h)

theorem valStr_of_isStrRecord {r : Record} (h : isStrRecord r = true)
    {k : String} {v : Val} (hf : findVal r k = some v) :
    ∃ s, v = Val.str s := by
  have hm := findVal_mem hf
  unfold isStrRecord at h
  rw [List.all_eq_true] at h
  have := h _ hm
  cases v with
  | str s => exact ⟨s, rfl⟩
  | num n => simp at this

/-- A record appears in the final pipeline result exactly when it appears in
the classifier output or is an allow-listed record of the (annotated) parsed
list, and its identifier is not blocked. -/
theorem mem_main_pipeline_iff (allowed blocked : List String)
    (apps : List Record) (level : String) (u : Bool) (x : Record) :
    x ∈ main_pipeline_with allowed blocked apps level u ↔
      ((x ∈ get_apps_to_upgrade (get_applications_using_semver apps)
          (lowerStr level) u ∨
        (x ∈ annotate_in_place apps ∧ getStr x "Id" ∈ allowed)) ∧
       ¬ getStr x "Id" ∈ blocked) := by
  unfold main_pipeline_with remove_blocked_updates_with
    add_allowed_updates_with
  simp [List.mem_filter, List.mem_append]
  tauto

theorem mem_gaus_of_mem {apps : List Record} {r : Record}
    (hmem : r ∈ apps) (huses : uses_semver r = true) :
    add_semver_details r ∈ get_applications_using_semver apps := by
  unfold get_applications_using_semver
  exact List.mem_map_of_mem _ (List.mem_filter.mpr ⟨hmem, huses⟩)

theorem mem_annotate_of_mem {apps : List Record} {r : Record}
    (hmem : r ∈ apps) (huses : uses_semver r = true) :
    add_semver_details r ∈ annotate_in_place apps := by
  unfold annotate_in_place
  have h := List.mem_map_of_mem
    (fun app => if uses_semver app then add_semver_details app else app) hmem
  simpa [huses] using h

/-- A record whose current version is textually `unknown` (so it does not
parse as semver) but whose values are all parser strings fails the three
level filters after annotation and passes the unknown-version filter. -/
theorem unknown_record_guards {r : Record}
    (hstr : isStrRecord r = true)
    (hvN : semverTriple? (getStr r "Version") = none)
    {ma mi pa : Nat}
    (hA : semverTriple? (getStr r "Available") = some (ma, mi, pa)) :
    has_patch_upgrade (add_semver_details r) = false ∧
    has_minor_upgrade (add_semver_details r) = false ∧
    has_major_upgrade (add_semver_details r) = false := by
  have hcm := findVal_current_of_no_version hvN "current_major"
    (by decide) (by decide) (by decide)
  have ham := (findVal_available_of_available hA).1
  rcases hfc : findVal r "current_major" with _ | v0
  · have hkey : hasKey (add_semver_details r) "current_major" = false := by
      unfold hasKey
      rw [hcm, hfc]
      rfl
    exact ⟨by simp [has_patch_upgrade, hkey],
      by simp [has_minor_upgrade, hkey], by simp [has_major_upgrade, hkey]⟩
  · obtain ⟨s0, rfl⟩ := valStr_of_isStrRecord hstr hfc
    have hg1 : getVal (add_semver_details r) "current_major" = Val.str s0 := by
      unfold getVal
      rw [hcm, hfc]
      rfl
    have hg2 : getVal (add_semver_details r) "available_major" =
        Val.num ma := by
      unfold getVal
      rw [ham]
      rfl
    exact ⟨by simp [has_patch_upgrade, hg1, hg2, valEq],
      by simp [has_minor_upgrade, hg1, hg2, valEq],
      by simp [has_major_upgrade, hg1, hg2, valLt]⟩

/-! ## Claim C1 -/

/-- Claim C1 (amended): a record whose `Version` is `unknown`
case-insensitively, whose `Available` parses as semver, and whose identifier
is in neither list, appears in the final pipeline result exactly when
`includeUnknownVersions` is true at levels `patch`, `minor` and `major`; at
level `all`, however, it appears unconditionally, because the `all` branch
returns the classifier's input, which `main` has already filtered to the
semver-qualifying records — this record among them (its `Available`
matches). -/
theorem C1_unknown_version_inclusion (allowed blocked : List String)
    (apps : List Record) (u : Bool) (r : Record)
    (hmem : r ∈ apps)
    (hstr : isStrRecord r = true)
    (hunk : lowerStr (getStr r "Version") = "unknown")
    (hsem : semverMatch (getStr r "Available") = true)
    (hidA : ¬ getStr r "Id" ∈ allowed)
    (hidB : ¬ getStr r "Id" ∈ blocked) :
    (∀ level, (level = "patch" ∨ level = "minor" ∨ level = "major") →
      (add_semver_details r ∈
        main_pipeline_with allowed blocked apps level u ↔ u = true)) ∧
    add_semver_details r ∈ main_pipeline_with allowed blocked apps "all" u := by
  obtain ⟨⟨ma, mi, pa⟩, hA⟩ :
      ∃ t, semverTriple? (getStr r "Available") = some t := by
    unfold semverMatch at hsem
    exact Option.isSome_iff_exists.mp hsem
  have hvN : semverTriple? (getStr r "Version") = none := by
    cases h : semverTriple? (getStr r "Version") with
    | none => rfl
    | some t =>
      have hne := lowerStr_ne_unknown_of_semver h
      rw [beq_eq_false_iff_ne] at hne
      exact absurd hunk hne
  have huses : uses_semver r = true := by
    simp [uses_semver, hsem]
  have hxg := mem_gaus_of_mem hmem huses
  have hxa := mem_annotate_of_mem hmem huses
  have hid : getStr (add_semver_details r) "Id" = getStr r "Id" :=
    getStr_add_semver_Id r
  obtain ⟨gp, gm, gM⟩ := unknown_record_guards hstr hvN hA
  have hunkx : has_unknown_current_version (add_semver_details r) = true := by
    unfold has_unknown_current_version
    rw [getStr_add_semver_Version, hunk]
    decide
  have hnotP : ¬ add_semver_details r ∈
      (get_applications_using_semver apps).filter has_patch_upgrade := by
    intro h
    rw [List.mem_filter] at h
    rw [gp] at h
    exact absurd h.2 (by simp)
  have hnotM : ¬ add_semver_details r ∈
      (get_applications_using_semver apps).filter has_minor_upgrade := by
    intro h
    rw [List.mem_filter] at h
    rw [gm] at h
    exact absurd h.2 (by simp)
  have hnotMaj : ¬ add_semver_details r ∈
      (get_applications_using_semver apps).filter has_major_upgrade := by
    intro h
    rw [List.mem_filter] at h
    rw [gM] at h
    exact absurd h.2 (by simp)
  have hU : add_semver_details r ∈
      (get_applications_using_semver apps).filter
        has_unknown_current_version :=
    List.mem_filter.mpr ⟨hxg, hunkx⟩
  constructor
  · intro level hlevel
    rw [mem_main_pipeline_iff]
    have hclass : add_semver_details r ∈
        get_apps_to_upgrade (get_applications_using_semver apps)
          (lowerStr level) u ↔ u = true := by
      rcases hlevel with rfl | rfl | rfl
      · rw [show lowerStr "patch" = "patch" from by decide,
          get_apps_to_upgrade_patch, get_applications_using_semver_idem]
        cases u with
        | false => simp [hnotP]
        | true => simp [List.mem_append, hnotP, hU]
      · rw [show lowerStr "minor" = "minor" from by decide,
          get_apps_to_upgrade_minor, get_applications_using_semver_idem]
        cases u with
        | false => simp [List.mem_append, hnotP, hnotM]
        | true => simp [List.mem_append, hnotP, hnotM, hU]
      · rw [show lowerStr "major" = "major" from by decide,
          get_apps_to_upgrade_major, get_applications_using_semver_idem]
        cases u with
        | false => simp [List.mem_append, hnotP, hnotM, hnotMaj]
        | true => simp [List.mem_append, hnotP, hnotM, hnotMaj, hU]
    rw [hclass, hid]
    constructor
    · intro h
      rcases h.1 with h1 | h1
      · exact h1
      · exact absurd h1.2 hidA
    · intro h
      exact ⟨Or.inl h, hidB⟩
  · rw [mem_main_pipeline_iff]
    rw [show lowerStr "all" = "all" from by decide, get_apps_to_upgrade_all]
    exact ⟨Or.inl hxg, hid ▸ hidB⟩

/-- Counterexample to C1 as stated: with `includeUnknownVersions = false`
and level `all`, the `Version="Unknown"`, `Available="2.0.0"` record (whose
identifier is in neither hard-coded list) still appears in the final
result. -/
theorem C1_unknown_version_inclusion_counterexample :
    add_semver_details unknownRecord ∈
      main_pipeline [unknownRecord] "all" false ∧
    ¬ getStr unknownRecord "Id" ∈ get_allowed_updates ∧
    ¬ getStr unknownRecord "Id" ∈ get_blocked_updates := by decide

/-- Witness for C1 at a concrete input: at level `patch` the unknown-version
record is included when `includeUnknownVersions` is true, and at level `all`
it is included as well. -/
theorem C1_unknown_version_inclusion_witness :
    add_semver_details unknownRecord ∈ main_pipeline_with
      get_allowed_updates get_blocked_updates [unknownRecord] "patch" true ∧
    add_semver_details unknownRecord ∈ main_pipeline_with
      get_allowed_updates get_blocked_updates [unknownRecord] "all" true := by
  have h := C1_unknown_version_inclusion get_allowed_updates
    get_blocked_updates [unknownRecord] true unknownRecord
    (List.mem_singleton.mpr rfl) (by decide) (by decide) (by decide)
    (by decide) (by decide)
  exact ⟨(h.1 "patch" (Or.inl rfl)).mpr rfl, h.2⟩

/-! ## Claim C2 -/

/-- Claim C2 (amended): at level `all`, a record is in the final pipeline
result exactly when it is a semver-qualifying parsed record (annotated) or
an allow-listed record of the (annotated) parsed list, and its identifier is
not blocked.  Parsed records that neither semver-qualify nor are
allow-listed are dropped, because `main` filters to semver-qualifying
records before `get_apps_to_upgrade`, whose `all` branch returns that
already-filtered argument. -/
theorem C2_all_level_result (allowed blocked : List String)
    (apps : List Record) (u : Bool) (x : Record) :
    x ∈ main_pipeline_with allowed blocked apps "all" u ↔
      ((x ∈ get_applications_using_semver apps ∨
        (x ∈ annotate_in_place apps ∧ getStr x "Id" ∈ allowed)) ∧
       ¬ getStr x "Id" ∈ blocked) := by
  rw [mem_main_pipeline_iff,
    show lowerStr "all" = "all" from by decide, get_apps_to_upgrade_all]

/-- Counterexample to C2 as stated: at level `all`, a parsed record whose
fields do not parse as semver and whose identifier is not block-listed is
nevertheless absent from the final result (the result is empty). -/
theorem C2_all_level_result_counterexample :
    main_pipeline [nonSemverRecord] "all" false = [] ∧
    ¬ getStr nonSemverRecord "Id" ∈ get_blocked_updates := by decide

/-! ## Claim C10 -/

/-- Claim C10 (amended): if a semver-qualifying record is selected by the
classifier at the given level and its identifier is allow-listed but not
block-listed, the final pipeline result contains its annotated form at least
twice — `add_allowed_updates` appends without deduplication.  (For a record
that does not semver-qualify, the claim fails at level `all`: the classifier
output is the semver-filtered list, so such a record appears only once, via
the allow-list append; see the counterexample.) -/
theorem C10_allow_list_duplicates (allowed blocked : List String)
    (apps : List Record) (level : String) (u : Bool) (r : Record)
    (hmem : r ∈ apps)
    (huses : uses_semver r = true)
    (hsel : add_semver_details r ∈
      get_apps_to_upgrade (get_applications_using_semver apps)
        (lowerStr level) u)
    (hidA : getStr r "Id" ∈ allowed)
    (hidB : ¬ getStr r "Id" ∈ blocked) :
    2 ≤ List.count (add_semver_details r)
      (main_pipeline_with allowed blocked apps level u) := by
  have hid : getStr (add_semver_details r) "Id" = getStr r "Id" :=
    getStr_add_semver_Id r
  unfold main_pipeline_with remove_blocked_updates_with
    add_allowed_updates_with
  rw [List.count_filter (by simp [hid, hidB]), List.count_append]
  have h1 : 1 ≤ List.count (add_semver_details r)
      (get_apps_to_upgrade (get_applications_using_semver apps)
        (lowerStr level) u) :=
    List.one_le_count_iff.mpr hsel
  have h2 : 1 ≤ List.count (add_semver_details r)
      ((annotate_in_place apps).filter
        (fun app => allowed.contains (getStr app "Id"))) :=
    List.one_le_count_iff.mpr (List.mem_filter.mpr
      ⟨mem_annotate_of_mem hmem huses, by simp [hid, hidA]⟩)
  omega

/-- Counterexample to C10 as stated: at level `all`, a parsed record that
does not semver-qualify but whose identifier is on the program's hard-coded
allow-list appears exactly once in the final result, not twice. -/
theorem C10_allow_list_duplicates_counterexample :
    List.count allowedNonSemverRecord
      (main_pipeline [allowedNonSemverRecord] "all" false) = 1 ∧
    getStr allowedNonSemverRecord "Id" ∈ get_allowed_updates ∧
    ¬ getStr allowedNonSemverRecord "Id" ∈ get_blocked_updates := by decide

/-- Witness for C10 at a concrete input: the patch-qualifying, allow-listed
record ends up in the final result at least twice. -/
theorem C10_allow_list_duplicates_witness :
    2 ≤ List.count (add_semver_details fooPatchRecord)
      (main_pipeline_with ["Foo.Foo"] [] [fooPatchRecord] "patch" false) :=
  C10_allow_list_duplicates ["Foo.Foo"] [] [fooPatchRecord] "patch" false
    fooPatchRecord (List.mem_singleton.mpr rfl) (by decide) (by decide)
    (by decide) (by decide)

/-! ## Claim C3 -/

/-- Claim C3: for every input record list and policy, every upgrade level and
every setting of `includeUnknownVersions`, no record whose identifier is in
the block-list appears in the final result of the full pipeline, even when
that identifier is also in the allow-list — `remove_blocked_updates` runs
last, after `add_allowed_updates`, so block wins. -/
theorem C3_block_list_supremacy (allowed blocked : List String)
    (apps : List Record) (level : String) (u : Bool) (x : Record)
    (hx : x ∈ main_pipeline_with allowed blocked apps level u) :
    ¬ getStr x "Id" ∈ blocked := by
  unfold main_pipeline_with remove_blocked_updates_with at hx
  rw [List.mem_filter] at hx
  simpa using hx.2

/-- Witness for C3 at a concrete input: the patch-upgrade record survives the
pipeline and its identifier is indeed not blocked. -/
theorem C3_block_list_supremacy_witness :
    add_semver_details fooPatchRecord ∈ main_pipeline_with
      get_allowed_updates get_blocked_updates [fooPatchRecord] "patch"
      false ∧
    ¬ getStr (add_semver_details fooPatchRecord) "Id" ∈ get_blocked_updates :=
  ⟨by decide, C3_block_list_supremacy get_allowed_updates get_blocked_updates
    [fooPatchRecord] "patch" false (add_semver_details fooPatchRecord)
    (by decide)⟩

/-! ## Claim C7 -/

/-- Claim C7: a record whose `Version` and `Available` fields both parse as
semantic versions with the same major, minor and patch is never selected by
classification at level `patch`, `minor` or `major` — no strict inequality
holds, and an all-digits version string can never equal `"unknown"`
case-insensitively, so the unknown-version append cannot produce it
either. -/
theorem C7_equal_versions_never_selected (apps : List Record) (level : String)
    (u : Bool) (x : Record) (ma mi pa : Nat)
    (hlevel : level = "patch" ∨ level = "minor" ∨ level = "major")
    (hv : semverTriple? (getStr x "Version") = some (ma, mi, pa))
    (ha : semverTriple? (getStr x "Available") = some (ma, mi, pa)) :
    ¬ x ∈ get_apps_to_upgrade apps level u := by
  intro hx
  have hfilter : ∀ g : Record → Bool,
      x ∈ (get_applications_using_semver apps).filter g →
      (g = has_patch_upgrade ∨ g = has_minor_upgrade ∨
        g = has_major_upgrade ∨ g = has_unknown_current_version) → False := by
    intro g hg hcase
    rw [List.mem_filter] at hg
    obtain ⟨hmem, hgx⟩ := hg
    obtain ⟨g1, g2, g3, g4⟩ := guards_false_of_equal hmem hv ha
    rcases hcase with rfl | rfl | rfl | rfl <;> simp_all
  rcases hlevel with rfl | rfl | rfl
  · rw [get_apps_to_upgrade_patch] at hx
    cases u with
    | false => exact hfilter _ hx (Or.inl rfl)
    | true =>
      rcases List.mem_append.mp hx with h | h
      · exact hfilter _ h (Or.inl rfl)
      · exact hfilter _ h (Or.inr (Or.inr (Or.inr rfl)))
  · rw [get_apps_to_upgrade_minor] at hx
    cases u with
    | false =>
      rcases List.mem_append.mp hx with h | h
      · exact hfilter _ h (Or.inr (Or.inl rfl))
      · exact hfilter _ h (Or.inl rfl)
    | true =>
      rcases List.mem_append.mp hx with h | h
      · rcases List.mem_append.mp h with h2 | h2
        · exact hfilter _ h2 (Or.inr (Or.inl rfl))
        · exact hfilter _ h2 (Or.inl rfl)
      · exact hfilter _ h (Or.inr (Or.inr (Or.inr rfl)))
  · rw [get_apps_to_upgrade_major] at hx
    cases u with
    | false =>
      rcases List.mem_append.mp hx with h | h
      · rcases List.mem_append.mp h with h2 | h2
        · exact hfilter _ h2 (Or.inr (Or.inr (Or.inl rfl)))
        · exact hfilter _ h2 (Or.inr (Or.inl rfl))
      · exact hfilter _ h (Or.inl rfl)
    | true =>
      rcases List.mem_append.mp hx with h | h
      · rcases List.mem_append.mp h with h2 | h2
        · rcases List.mem_append.mp h2 with h3 | h3
          · exact hfilter _ h3 (Or.inr (Or.inr (Or.inl rfl)))
          · exact hfilter _ h3 (Or.inr (Or.inl rfl))
        · exact hfilter _ h2 (Or.inl rfl)
      · exact hfilter _ h (Or.inr (Or.inr (Or.inr rfl)))

/-- Witness for C7 at a concrete input: the `1.2.3 → 1.2.3` record parses to
the triple `(1, 2, 3)` on both sides and is not selected at level `patch`. -/
theorem C7_equal_versions_never_selected_witness :
    semverTriple? (getStr (add_semver_details equalVersionsRecord)
      "Version") = some (1, 2, 3) ∧
    ¬ add_semver_details equalVersionsRecord ∈
      get_apps_to_upgrade [equalVersionsRecord] "patch" false :=
  ⟨by decide, C7_equal_versions_never_selected [equalVersionsRecord] "patch"
    false (add_semver_details equalVersionsRecord) 1 2 3 (Or.inl rfl)
    (by decide) (by decide)⟩

/-! ## Claim C8 -/

/-- Claim C8: for identical input records and a fixed
`includeUnknownVersions`, every record selected by classification at level
`patch` is also selected at level `minor`, and every record selected at
`minor` is also selected at `major` (the `minor` result is the minor list
followed by the patch list, and the `major` result prepends the major
list). -/
theorem C8_level_monotonicity (apps : List Record) (u : Bool) (x : Record) :
    (x ∈ get_apps_to_upgrade apps "patch" u →
      x ∈ get_apps_to_upgrade apps "minor" u) ∧
    (x ∈ get_apps_to_upgrade apps "minor" u →
      x ∈ get_apps_to_upgrade apps "major" u) := by
  rw [get_apps_to_upgrade_patch, get_apps_to_upgrade_minor,
    get_apps_to_upgrade_major]
  cases u <;> refine ⟨?_, ?_⟩ <;> intro hx <;>
    simp only [if_true, if_false, Bool.false_eq_true, Bool.true_eq_false,
      List.mem_append] at hx ⊢ <;> tauto

/-- Witness for C8 at a concrete input: the patch-level selection of the
`1.0.0 → 1.0.1` record propagates to the `minor` and `major` results. -/
theorem C8_level_monotonicity_witness :
    add_semver_details fooPatchRecord ∈
      get_apps_to_upgrade [fooPatchRecord] "minor" false ∧
    add_semver_details fooPatchRecord ∈
      get_apps_to_upgrade [fooPatchRecord] "major" false := by
  have h1 := (C8_level_monotonicity [fooPatchRecord] false
    (add_semver_details fooPatchRecord)).1 (by decide)
  exact ⟨h1, (C8_level_monotonicity [fooPatchRecord] false
    (add_semver_details fooPatchRecord)).2 h1⟩

/-! ## Parser structure lemmas -/

theorem keys_setVal_fresh {r : Record} {k : String} (v : Val)
    (h : findVal r k = none) :
    (setVal r k v).map Prod.fst = r.map Prod.fst ++ [k] := by
  rw [setVal_fresh v h]
  simp

theorem findVal_singleton_ne {k0 k : String} (v : Val) (h : ¬ k0 = k) :
    findVal [(k0, v)] k = none := by
  simp [findVal, h]

theorem record_of_row_eq_append (row : List Char) :
    ∀ (hdrs : List (List Char × Nat)) (acc : Record),
    (hdrs.map (fun p => (⟨p.1⟩ : String))).Pairwise (· ≠ ·) →
    (∀ p ∈ hdrs, findVal acc ⟨p.1⟩ = none) →
    record_of_row row hdrs acc = acc ++ row_fields row hdrs := by
  intro hdrs
  induction hdrs with
  | nil => intro acc _ _; simp [record_of_row, row_fields]
  | cons q rest ih =>
    intro acc hdist hfresh
    obtain ⟨key, start_pos⟩ := q
    rw [List.map_cons, List.pairwise_cons] at hdist
    obtain ⟨hhead, htail⟩ := hdist
    have hf0 : findVal acc ⟨key⟩ = none :=
      hfresh _ (List.mem_cons_self _ _)
    show record_of_row row rest (setVal acc ⟨key⟩ _) = _
    rw [ih (setVal acc ⟨key⟩ _) htail ?_]
    · rw [setVal_fresh _ hf0, List.append_assoc]
      rfl
    · intro p hp
      have hne : (⟨p.1⟩ : String) ≠ ⟨key⟩ := by
        have := hhead ⟨p.1⟩ (List.mem_map_of_mem _ hp)
        exact fun hc => this hc.symm
      rw [setVal_fresh _ hf0,
        findVal_append_none (hfresh _ (List.mem_cons_of_mem _ hp))]
      exact findVal_singleton_ne _ (fun hc => hne hc.symm)

theorem keys_row_fields (row : List Char) (hdrs : List (List Char × Nat)) :
    (row_fields row hdrs).map Prod.fst =
      hdrs.map (fun p => (⟨p.1⟩ : String)) := by
  induction hdrs with
  | nil => rfl
  | cons q rest ih =>
    obtain ⟨key, start_pos⟩ := q
    simp [row_fields, ih]

theorem findVal_row_fields_empty (row : List Char) :
    ∀ (hdrs : List (List Char × Nat)),
    (hdrs.map (fun p => (⟨p.1⟩ : String))).Pairwise (· ≠ ·) →
    ∀ p ∈ hdrs, row.length ≤ p.2 →
    findVal (row_fields row hdrs) ⟨p.1⟩ = some (Val.str "") := by
  intro hdrs
  induction hdrs with
  | nil => intro _ p hp; simp at hp
  | cons q rest ih =>
    intro hdist p hp hlen
    rw [List.map_cons, List.pairwise_cons] at hdist
    obtain ⟨hhead, htail⟩ := hdist
    rcases List.mem_cons.mp hp with rfl | hp'
    · obtain ⟨key, start_pos⟩ := p
      simp only at hlen
      have hval : (match rest with
          | (_, end_pos) :: _ => pyStrip (pySlice row start_pos end_pos)
          | [] => pyStrip (row.drop start_pos)) = [] := by
        cases rest with
        | nil => simp [List.drop_eq_nil_of_le hlen, pyStrip]
        | cons q2 rest2 =>
          simp [pySlice, List.drop_eq_nil_of_le hlen, pyStrip]
      simp only [row_fields, hval, findVal, if_pos]
    · obtain ⟨key, start_pos⟩ := q
      have hne : (⟨p.1⟩ : String) ≠ ⟨key⟩ := by
        have := hhead ⟨p.1⟩ (List.mem_map_of_mem _ hp')
        exact fun hc => this hc.symm
      simp only [row_fields, findVal]
      rw [if_neg (fun hc => hne hc.symm)]
      exact ih htail p hp' hlen

/-! ## Claim C4 -/

theorem keys_add_current_semver {app : Record} {ma mi pa : Nat}
    (h : semverTriple? (getStr app "Version") = some (ma, mi, pa))
    (f1 : findVal app "current_major" = none)
    (f2 : findVal app "current_minor" = none)
    (f3 : findVal app "current_patch" = none) :
    (add_current_semver app).map Prod.fst = app.map Prod.fst ++
      ["current_major", "current_minor", "current_patch"] := by
  unfold add_current_semver
  simp only [h]
  have f2' : findVal (setVal app "current_major" (Val.num ma))
      "current_minor" = none := by
    rw [findVal_setVal_ne _ _ _ _ (by decide)]; exact f2
  have f3' : findVal (setVal (setVal app "current_major" (Val.num ma))
      "current_minor" (Val.num mi)) "current_patch" = none := by
    rw [findVal_setVal_ne _ _ _ _ (by decide),
      findVal_setVal_ne _ _ _ _ (by decide)]
    exact f3
  rw [keys_setVal_fresh _ f3', keys_setVal_fresh _ f2',
    keys_setVal_fresh _ f1]
  simp

theorem keys_add_available_semver {app : Record} {ma mi pa : Nat}
    (h : semverTriple? (getStr app "Available") = some (ma, mi, pa))
    (f1 : findVal app "available_major" = none)
    (f2 : findVal app "available_minor" = none)
    (f3 : findVal app "available_patch" = none) :
    (add_available_semver app).map Prod.fst = app.map Prod.fst ++
      ["available_major", "available_minor", "available_patch"] := by
  unfold add_available_semver
  simp only [h]
  have f2' : findVal (setVal app "available_major" (Val.num ma))
      "available_minor" = none := by
    rw [findVal_setVal_ne _ _ _ _ (by decide)]; exact f2
  have f3' : findVal (setVal (setVal app "available_major" (Val.num ma))
      "available_minor" (Val.num mi)) "available_patch" = none := by
    rw [findVal_setVal_ne _ _ _ _ (by decide),
      findVal_setVal_ne _ _ _ _ (by decide)]
    exact f3
  rw [keys_setVal_fresh _ f3', keys_setVal_fresh _ f2',
    keys_setVal_fresh _ f1]
  simp

/-- Claim C4 (amended): semver annotation is applied to the record itself,
not to a copy — `add_semver_details` assigns into the dict it was given and
returns that same dict.  A parsed record whose `Version` and `Available`
both match the semver pattern therefore ends up holding its original
header-row keys followed by the six derived keys, and is no longer equal to
the record the parser produced. -/
theorem C4_annotation_in_place (app : Record)
    (hv : semverMatch (getStr app "Version") = true)
    (ha : semverMatch (getStr app "Available") = true)
    (hfresh : ∀ k ∈ derivedKeys, findVal app k = none) :
    (add_semver_details app).map Prod.fst =
      app.map Prod.fst ++ derivedKeys ∧
    add_semver_details app ≠ app := by
  obtain ⟨⟨va, vb, vc⟩, hV⟩ : ∃ t, semverTriple? (getStr app "Version") =
      some t := Option.isSome_iff_exists.mp hv
  obtain ⟨⟨aa, ab, ac⟩, hA⟩ : ∃ t, semverTriple? (getStr app "Available") =
      some t := Option.isSome_iff_exists.mp ha
  have hkeys : (add_semver_details app).map Prod.fst =
      app.map Prod.fst ++ derivedKeys := by
    unfold add_semver_details
    have hA' : semverTriple? (getStr (add_current_semver app) "Available") =
        some (aa, ab, ac) := by rw [getStr_add_current_Available]; exact hA
    have g1 : findVal (add_current_semver app) "available_major" = none := by
      rw [findVal_add_current_semver _ _ (by decide) (by decide) (by decide)]
      exact hfresh _ (by decide)
    have g2 : findVal (add_current_semver app) "available_minor" = none := by
      rw [findVal_add_current_semver _ _ (by decide) (by decide) (by decide)]
      exact hfresh _ (by decide)
    have g3 : findVal (add_current_semver app) "available_patch" = none := by
      rw [findVal_add_current_semver _ _ (by decide) (by decide) (by decide)]
      exact hfresh _ (by decide)
    rw [keys_add_available_semver hA' g1 g2 g3,
      keys_add_current_semver hV (hfresh _ (by decide)) (hfresh _ (by decide))
        (hfresh _ (by decide))]
    simp [derivedKeys]
  refine ⟨hkeys, fun hc => ?_⟩
  have h2 : app.map Prod.fst ++ derivedKeys = app.map Prod.fst := by
    rw [← hkeys, hc]
  have h3 := congrArg List.length h2
  simp only [List.length_append, derivedKeys, List.length_cons,
    List.length_nil] at h3
  omega

/-- Counterexample to C4 as stated: after classification the parser's
`1.0.0 → 1.1.0` record (mutated in place by `add_semver_details`) no longer
holds exactly the five header-row keys, and the level-`all` pipeline output
exposes the added fields. -/
theorem C4_annotation_in_place_counterexample :
    (annotate_in_place [fooMinorRecord]).headI.map Prod.fst ≠
      fooMinorRecord.map Prod.fst ∧
    main_pipeline [fooMinorRecord] "all" false ≠ [fooMinorRecord] := by
  decide

/-- Witness for C4 at a concrete input: the annotated record's keys are the
five header keys followed by the six derived keys, and the record changed. -/
theorem C4_annotation_in_place_witness :
    (add_semver_details fooMinorRecord).map Prod.fst =
      fooMinorRecord.map Prod.fst ++ derivedKeys ∧
    add_semver_details fooMinorRecord ≠ fooMinorRecord :=
  C4_annotation_in_place fooMinorRecord (by decide) (by decide) (by decide)

/-! ## Claim C5 -/

/-- Claim C5: if the raw text has fewer than two CRLF-separated lines, or
its first line (the header line) contains no printable whitespace-delimited
token, parsing fails with the malformed-table error (in the source, the
`IndexError` raised at `rows[0]` / `headers[0]`, propagated to the caller
with no partial result; the spec's `MalformedTableError`). -/
theorem get_headers_cons (r0 : List Char) (rest : List (List Char)) :
    get_headers_and_their_starting_positions (r0 :: rest) =
      match headerTokens r0 with
      | [] => Except.error ParseError.malformedTable
      | h0 :: hs => Except.ok ((h0 :: hs).map
          (fun h => (h, strFind r0 h - strFind r0 h0))) := rfl

theorem extract_records_error_of_no_tokens {rows : List (List Char)}
    (h : rows = [] ∨ ∃ l0 rest, rows = l0 :: rest ∧ headerTokens l0 = []) :
    extract_records rows = Except.error ParseError.malformedTable := by
  rcases h with rfl | ⟨l0, rest, rfl, htk⟩
  · rfl
  · unfold extract_records
    rw [get_headers_cons, htk]

theorem C5_malformed_table (output : String)
    (h : (splitCRLF output.data).length < 2 ∨
      headerTokens ((splitCRLF output.data).headI) = []) :
    extract_applications_from_table output =
      Except.error ParseError.malformedTable := by
  unfold extract_applications_from_table
  rcases hsplit : splitCRLF output.data with _ | ⟨l0, _ | ⟨l1, _ | ⟨l2, rest⟩⟩⟩
  · exact extract_records_error_of_no_tokens (Or.inl rfl)
  · exact extract_records_error_of_no_tokens (Or.inl rfl)
  · exact extract_records_error_of_no_tokens (Or.inl (by simp [List.dropLast]))
  · rw [hsplit] at h
    rcases h with h | h
    · simp only [List.length_cons] at h
      omega
    · simp only [List.headI] at h
      refine extract_records_error_of_no_tokens (Or.inr ⟨l0, ?_, ?_, h⟩)
      · exact (l1 :: (l2 :: rest).dropLast).dropLast
      · rw [show (l0 :: l1 :: l2 :: rest).dropLast =
            l0 :: l1 :: (l2 :: rest).dropLast from by
          rw [List.dropLast_cons₂, List.dropLast_cons₂],
          List.dropLast_cons₂]

/-- Witness for C5 at a concrete input: the one-line text `"x"` has fewer
than two lines and parsing fails. -/
theorem C5_malformed_table_witness :
    (splitCRLF ("x" : String).data).length < 2 ∧
    extract_applications_from_table "x" =
      Except.error ParseError.malformedTable :=
  ⟨by decide, C5_malformed_table "x" (Or.inl (by decide))⟩

/-! ## Claim C6 -/

theorem extract_records_keys (rows : List (List Char))
    (records : List Record)
    (hok : extract_records rows = Except.ok records)
    (hdist : (headerTokens rows.headI).Pairwise (· ≠ ·)) :
    ∀ r ∈ records, r.map Prod.fst =
      (headerTokens rows.headI).map (fun h => (⟨h⟩ : String)) := by
  cases rows with
  | nil => exact absurd hok (by simp [extract_records,
      get_headers_and_their_starting_positions])
  | cons r0 rrest =>
    simp only [List.headI] at hdist ⊢
    unfold extract_records at hok
    rw [get_headers_cons] at hok
    rcases htk : headerTokens r0 with _ | ⟨h0, hs⟩
    · rw [htk] at hok
      exact absurd hok (by simp)
    · rw [htk] at hok
      have hok2 : Except.ok (((r0 :: rrest).drop 2).map
          (fun row => record_of_row row ((h0 :: hs).map (fun hh =>
            (hh, strFind r0 hh - strFind r0 h0))) [])) =
          Except.ok records := hok
      rw [Except.ok.injEq] at hok2
      intro r hr
      rw [← hok2] at hr
      obtain ⟨row, _, rfl⟩ := List.mem_map.mp hr
      have hdist' : (((h0 :: hs).map (fun hh =>
          (hh, strFind r0 hh - strFind r0 h0))).map
            (fun p => (⟨p.1⟩ : String))).Pairwise (· ≠ ·) := by
        rw [List.map_map]
        rw [htk] at hdist
        rw [List.pairwise_map]
        refine hdist.imp ?_
        intro a b hab
        exact fun hc => hab (congrArg String.data hc)
      rw [record_of_row_eq_append row _ [] hdist' (fun p _ => rfl)]
      rw [List.nil_append, keys_row_fields, List.map_map]
      rfl

/-- Claim C6 (amended): for every raw input whose header line tokenizes into
k *distinct* printable labels, every parsed record has exactly those k
labels as its keys, in header order.  (With a repeated label the Python dict
collapses the duplicates and the record has fewer keys than the header has
labels; see the counterexample.) -/
theorem C6_record_keys (output : String) (records : List Record)
    (hok : extract_applications_from_table output = Except.ok records)
    (hdist : (headerTokens
        (((splitCRLF output.data).dropLast.dropLast).headI)).Pairwise
      (· ≠ ·)) :
    ∀ r ∈ records, r.map Prod.fst =
      (headerTokens (((splitCRLF output.data).dropLast.dropLast).headI)).map
        (fun h => (⟨h⟩ : String)) := by
  exact extract_records_keys _ records hok hdist

/-- Counterexample to C6 as stated: a header whose two tokens are both `A`
tokenizes into k = 2 printable labels, but the parsed record has a single
key (the dict collapses the repeated label). -/
theorem C6_record_keys_counterexample :
    extract_applications_from_table "A A\r\n-\r\nxy\r\nt\r\nu" =
      Except.ok [[("A", Val.str "xy")]] ∧
    (headerTokens (((splitCRLF ("A A\r\n-\r\nxy\r\nt\r\nu" :
        String).data).dropLast.dropLast).headI)).length = 2 ∧
    ¬ ([("A", Val.str "xy")] : Record).map Prod.fst =
      (headerTokens (((splitCRLF ("A A\r\n-\r\nxy\r\nt\r\nu" :
          String).data).dropLast.dropLast).headI)).map
        (fun h => (⟨h⟩ : String)) := by
  decide

/-- Witness for C6 at a concrete input: the spec's five-column header yields
records keyed `Name, Id, Version, Available, Source` in order. -/
theorem C6_record_keys_witness :
    extract_applications_from_table
      "Name  Id       Version  Available  Source\r\n----\r\nFoo   Foo.Foo  1.0.0    1.1.0      winget\r\ntrail\r\n" =
      Except.ok [fooMinorRecord] ∧
    fooMinorRecord.map Prod.fst =
      (headerTokens (((splitCRLF
        ("Name  Id       Version  Available  Source\r\n----\r\nFoo   Foo.Foo  1.0.0    1.1.0      winget\r\ntrail\r\n"
          : String).data).dropLast.dropLast).headI)).map
        (fun h => (⟨h⟩ : String)) :=
  ⟨by decide, C6_record_keys _ [fooMinorRecord] (by decide) (by decide)
    fooMinorRecord (List.mem_singleton.mpr rfl)⟩

/-! ## Claim C9 -/

/-- Claim C9 (amended): for a raw CRLF input consisting of a header line, a
separator line, N data lines and two trailing lines, the parser returns
exactly one record per data line, in order (first conjunct: the output is
literally the map of the record constructor over the data lines); and, for
distinct header labels, every column whose start offset is ≥ the data
line's length receives the empty string.  (The original claim's "and every
column after it" fails: offsets need not be monotone in header order, since
`find` can locate a later label inside an earlier one — see the
counterexample.) -/
theorem C9_row_preservation (output : String) (header sep t1 t2 : List Char)
    (data : List (List Char)) (hp : List (List Char × Nat))
    (hsplit : splitCRLF output.data = header :: sep :: (data ++ [t1, t2]))
    (hheaders : get_headers_and_their_starting_positions
      (header :: sep :: data) = Except.ok hp) :
    extract_applications_from_table output =
      Except.ok (data.map (fun row => record_of_row row hp [])) ∧
    ((hp.map (fun p => (⟨p.1⟩ : String))).Pairwise (· ≠ ·) →
      ∀ row ∈ data, ∀ p ∈ hp, row.length ≤ p.2 →
        findVal (record_of_row row hp []) ⟨p.1⟩ = some (Val.str "")) := by
  have hrows : ((splitCRLF output.data).dropLast).dropLast =
      header :: sep :: data := by
    rw [hsplit,
      show header :: sep :: (data ++ [t1, t2]) =
        ((header :: sep :: data) ++ [t1]) ++ [t2] from by simp,
      List.dropLast_concat, List.dropLast_concat]
  constructor
  · unfold extract_applications_from_table extract_records
    rw [hrows, hheaders]
    rfl
  · intro hdist row hrow p hpmem hlen
    rw [record_of_row_eq_append row hp [] hdist (fun p _ => rfl),
      List.nil_append]
    exact findVal_row_fields_empty row hp hdist p hpmem hlen

/-- Counterexample to C9 as stated: with header `"ac b c"` the columns get
start offsets `ac ↦ 0`, `b ↦ 3`, `c ↦ 1` (`find` locates `"c"` inside
`"ac"`), so for the two-character data row `"xy"` — shorter than column
`b`'s offset 3 — column `b` gets `""` but the *later* column `c` gets
`"y"`, not the empty string. -/
theorem C9_row_preservation_counterexample :
    get_headers_and_their_starting_positions
      [("ac b c" : String).data, ("-" : String).data, ("xy" : String).data] =
      Except.ok [(("ac" : String).data, 0), (("b" : String).data, 3),
        (("c" : String).data, 1)] ∧
    ("xy" : String).data.length < 3 ∧
    extract_applications_from_table "ac b c\r\n-\r\nxy\r\nt\r\nu" =
      Except.ok [[("ac", Val.str "xy"), ("b", Val.str ""),
        ("c", Val.str "y")]] ∧
    ¬ findVal [("ac", Val.str "xy"), ("b", Val.str ""), ("c", Val.str "y")]
      "c" = some (Val.str "") := by
  decide

/-- Witness for C9 at a concrete input: a two-column table with one data
row parses to exactly that row's record. -/
theorem C9_row_preservation_witness :
    extract_applications_from_table "Name Id\r\n-\r\nFoo F.F\r\nt\r\nu" =
      Except.ok ([("Foo F.F" : String).data].map (fun row =>
        record_of_row row [(("Name" : String).data, 0),
          (("Id" : String).data, 5)] [])) :=
  (C9_row_preservation "Name Id\r\n-\r\nFoo F.F\r\nt\r\nu"
    ("Name Id" : String).data ("-" : String).data ("t" : String).data
    ("u" : String).data [("Foo F.F" : String).data]
    [(("Name" : String).data, 0), (("Id" : String).data, 5)]
    (by decide) (by decide)).1

end PyWinget
